import Mathlib

/-!
# Verification of the burning-text effect of `scare-game`

Shallow embedding of the heat/fuel simulation of `burning_text.py`
(`Letter.add_heat`, `Letter.update`), the snapshot manager of
`burning_text_state.py` (`BurningStateManager.save_state` /
`restore_state`), and the screen-burn transition of
`settings_screen.py` / `main_menu.py` (`ScreenBurnTransition`).

Machine floats are modelled by exact rationals; the per-step random
spread rolls (`random.random() < FIRE_SPREAD_CHANCE`) are passed in as a
boolean oracle, and the freshly generated charred texture object is
represented by an opaque natural-number token supplied by the caller.
Particles are pure visual output: no claim reads them, and in the source
they never feed back into the heat/fuel arrays, so they are omitted
from the state.
-/

namespace ScareGame

/-! ## Configuration constants (burning_text.py, lines 16-23) -/

def HEAT_RATE : ℚ := 400
def COOL_RATE : ℚ := 50
def IGNITION_POINT : ℚ := 200
def HEAT_TRANSFER_RATE : ℚ := 800
def FUEL_CONSUMPTION_RATE : ℚ := 1/2
def FIRE_SPREAD_CHANCE : ℚ := 95/100

/-! ## The per-letter simulation state

`heat_map` and `fuel_map` are numpy arrays of shape `(width, height)`
indexed `[x][y]`; we model them as functions on `Fin w × Fin h`.
`mask` is the boolean glyph mask (`mask_array` in the source);
`charredGen` is `None` until `_generate_charred_texture` runs, after
which it holds the token of the generated texture object. -/

abbrev Pos (w h : ℕ) := Fin w × Fin h

structure LetterState (w h : ℕ) where
  mask : Pos w h → Bool
  heat : Pos w h → ℚ
  fuel : Pos w h → ℚ
  charredGen : Option ℕ

/-- `Letter.__init__`: heat 0 everywhere, fuel `100.0 * mask_array`
(100 on glyph pixels, 0 off-glyph), no charred texture. -/
def initLetter {w h : ℕ} (mask : Pos w h → Bool) : LetterState w h where
  mask := mask
  heat := fun _ => 0
  fuel := fun p => if mask p then 100 else 0
  charredGen := none

/-- `Letter.add_heat(x, y, radius, dt)` after translating to local
coordinates `(lx, ly)`: adds `HEAT_RATE * dt` to every cell whose
squared distance to `(lx, ly)` is `< radius²` and whose fuel is
positive (`heat_mask = (dist_sq < radius**2) & (self.fuel_map > 0)`). -/
def addHeat {w h : ℕ} (lx ly : ℤ) (radius dt : ℚ) (s : LetterState w h) :
    LetterState w h :=
  { s with heat := fun p =>
      if ((((p.1 : ℤ) - lx) ^ 2 + ((p.2 : ℤ) - ly) ^ 2 : ℤ) : ℚ) < radius ^ 2
          ∧ 0 < s.fuel p
      then s.heat p + HEAT_RATE * dt
      else s.heat p }

/-- `np.maximum(x, lo)` — the lower half of `np.clip`. -/
def clipLo (lo x : ℚ) : ℚ := if x < lo then lo else x

/-- `np.minimum(x, hi)` — the upper half of `np.clip`. -/
def clipHi (hi x : ℚ) : ℚ := if hi < x then hi else x

/-- Heat after the cooling phase of `Letter.update`:
`heat_map -= COOL_RATE * dt; np.clip(heat_map, 0, None)`. -/
def cooledHeat {w h : ℕ} (dt : ℚ) (s : LetterState w h) (p : Pos w h) : ℚ :=
  clipLo 0 (s.heat p - COOL_RATE * dt)

/-- `burning_mask = (heat_map >= IGNITION_POINT) & (fuel_map > 0)`,
evaluated on the cooled heat. -/
def burning {w h : ℕ} (dt : ℚ) (s : LetterState w h) (p : Pos w h) : Prop :=
  IGNITION_POINT ≤ cooledHeat dt s p ∧ 0 < s.fuel p

instance {w h : ℕ} (dt : ℚ) (s : LetterState w h) (p : Pos w h) :
    Decidable (burning dt s p) := by unfold burning; infer_instance

/-- Membership of `p` in the numpy slice
`[max(0,qx-1) : min(w,qx+2), max(0,qy-1) : min(h,qy+2)]` centred on the
burning cell `q` — the 3×3 block clamped to the grid bounds.  Note that
the slice contains the centre `q` itself. -/
def inSpreadBlock {w h : ℕ} (q p : Pos w h) : Prop :=
  p.1.val ≤ q.1.val + 1 ∧ q.1.val ≤ p.1.val + 1 ∧
  p.2.val ≤ q.2.val + 1 ∧ q.2.val ≤ p.2.val + 1

instance {w h : ℕ} (q p : Pos w h) : Decidable (inSpreadBlock q p) := by
  unfold inSpreadBlock; infer_instance

/-- The number of burning cells `q` that passed their spread roll and
whose 3×3 slice contains `p`; each such cell contributes one
`heat_map[...] += HEAT_TRANSFER_RATE * dt` increment at `p`. -/
def spreadCount {w h : ℕ} (dt : ℚ) (roll : Pos w h → Bool)
    (s : LetterState w h) (p : Pos w h) : ℕ :=
  (Finset.univ.filter
    (fun q : Pos w h => burning dt s q ∧ roll q = true ∧ inSpreadBlock q p)).card

/-- Fuel after consumption (`fuel_map[burning_mask] -= FUEL_CONSUMPTION_RATE
* 100 * dt`) and the final `np.clip(fuel_map, 0, 100)`. -/
def updatedFuel {w h : ℕ} (dt : ℚ) (s : LetterState w h) (p : Pos w h) : ℚ :=
  clipHi 100 (clipLo 0
    (if burning dt s p then s.fuel p - FUEL_CONSUMPTION_RATE * 100 * dt
     else s.fuel p))

/-- `Letter.update(dt, current_time)`: cooling, fuel consumption, heat
spread, fuel clipping, and one-shot charred-texture generation.  The
spread loop iterates over the coordinates of the `burning_mask`
computed before any mutation, so its net effect on a cell is
`HEAT_TRANSFER_RATE * dt` times the number of contributing burning
cells.  `roll q` is the outcome of `random.random() < FIRE_SPREAD_CHANCE`
for cell `q`; `freshTex` is the identity token of the texture that
`_generate_charred_texture` would create this frame. -/
def update {w h : ℕ} (dt : ℚ) (roll : Pos w h → Bool) (freshTex : ℕ)
    (s : LetterState w h) : LetterState w h where
  mask := s.mask
  heat := fun p =>
    cooledHeat dt s p + HEAT_TRANSFER_RATE * dt * spreadCount dt roll s p
  fuel := fun p => updatedFuel dt s p
  charredGen :=
    if s.charredGen = none ∧ (∃ p, updatedFuel dt s p < 100)
        ∧ (∀ p, s.mask p = true → updatedFuel dt s p = 0)
    then some freshTex else s.charredGen

/-! ## Sequences of public letter operations

`BurningText.update` calls `add_heat` (when the mouse is over the
letter) followed by `Letter.update`; a letter's heat/fuel state over
its lifetime is therefore a fold of these two operations (plus
snapshot restores, modelled separately below on the manager side). -/

inductive LetterOp (w h : ℕ) where
  | heatOp (lx ly : ℤ) (radius dt : ℚ)
  | updateOp (dt : ℚ) (roll : Pos w h → Bool) (tex : ℕ)

def applyOp {w h : ℕ} (op : LetterOp w h) (s : LetterState w h) :
    LetterState w h :=
  match op with
  | .heatOp lx ly radius dt => addHeat lx ly radius dt s
  | .updateOp dt roll tex => update dt roll tex s

def runOps {w h : ℕ} (ops : List (LetterOp w h)) (s : LetterState w h) :
    LetterState w h :=
  ops.foldl (fun s op => applyOp op s) s

/-- Arbitrary external heat injection between frames (mouse heating via
`add_heat`, or spread heat from sibling cells); it never touches fuel. -/
def injectHeat {w h : ℕ} (g : Pos w h → ℚ) (s : LetterState w h) :
    LetterState w h :=
  { s with heat := fun p => s.heat p + g p }

/-- A run of `Letter.update` calls, with arbitrary external heat
injection before each one, along which cell `p` is held at burning
heat: at every step its cooled heat is at least `IGNITION_POINT`. -/
inductive BurnRun {w h : ℕ} (p : Pos w h) :
    LetterState w h → List ℚ → LetterState w h → Prop where
  | nil (s : LetterState w h) : BurnRun p s [] s
  | step (s s' : LetterState w h) (g : Pos w h → ℚ) (dt : ℚ)
      (roll : Pos w h → Bool) (tex : ℕ) (dts : List ℚ)
      (hdt : 0 ≤ dt)
      (hheld : IGNITION_POINT ≤ cooledHeat dt (injectHeat g s) p)
      (hrun : BurnRun p (update dt roll tex (injectHeat g s)) dts s') :
      BurnRun p s (dt :: dts) s'

/-- The numeric invariant of the spec: every cell has `0 ≤ fuel ≤ 100`
and `0 ≤ heat`. -/
def LetterOK {w h : ℕ} (s : LetterState w h) : Prop :=
  ∀ p, 0 ≤ s.fuel p ∧ s.fuel p ≤ 100 ∧ 0 ≤ s.heat p

/-! ## The snapshot manager (burning_text_state.py), value level

`save_state` copies each letter's arrays out with `.tolist()` and
`restore_state` writes them back with `np.array(...)`; a
`tolist`/`np.array` round trip is the identity on the numbers, so at
the value level an array is a `List (List ℚ)` (outer index `x`, inner
`y`, numpy's `[x][y]` order) and copying is plain equality.  Aliasing
is dealt with in the heap-level model further down. -/

abbrev Grid := List (List ℚ)

/-- The fields of `Letter` that `save_state`/`restore_state` touch. -/
structure VLetter where
  char : Char
  posx : ℤ
  posy : ℤ
  fuel_map : Grid
  heat_map : Grid

/-- A `BurningText`: its literal text and its `letters` list, with
`None` at the slots `_initialize_letters` created for spaces. -/
structure VBurningText where
  text : String
  letters : List (Option VLetter)

/-- One entry of `state_data['letters_state']`: the dict built at
burning_text_state.py lines 38-43.  The maps are `Option`s because the
source stores `None` when the array has no `tolist` attribute. -/
structure SnapLetter where
  char : Char
  posx : ℤ
  posy : ℤ
  fuel_map : Option Grid
  heat_map : Option Grid

/-- `state_data`: the saved text plus the per-letter snapshots. -/
structure Snapshot where
  text : String
  letters_state : List (Option SnapLetter)

/-- `BurningStateManager.states`: a dict from identifier to snapshot,
modelled as an association list where insertion prepends. -/
structure Manager where
  states : List (String × Snapshot)

def emptyManager : Manager := ⟨[]⟩

/-- Dict lookup `self.states[identifier]` / `identifier in self.states`. -/
def lookupState (m : Manager) (id : String) : Option Snapshot :=
  (m.states.find? (fun e => e.1 == id)).map (·.2)

/-- The `state_data` built by `save_state` from a burning text object:
per letter `None` for a `None` slot, else char, pos and the two maps
copied out via `tolist`. -/
def saveSnap (obj : VBurningText) : Snapshot where
  text := obj.text
  letters_state := obj.letters.map (Option.map (fun L =>
    { char := L.char, posx := L.posx, posy := L.posy,
      fuel_map := some L.fuel_map, heat_map := some L.heat_map }))

/-- `BurningStateManager.save_state`: store the snapshot under the
identifier.  The body only reads from `burning_text_obj`. -/
def saveState (m : Manager) (id : String) (obj : VBurningText) : Manager :=
  ⟨(id, saveSnap obj) :: m.states⟩

/-- The two `letter.fuel_map = np.array(...)` / `letter.heat_map =
np.array(...)` assignments, each guarded by an `is not None` check. -/
def applySnap (L : VLetter) (sn : SnapLetter) : VLetter :=
  { L with fuel_map := sn.fuel_map.getD L.fuel_map,
           heat_map := sn.heat_map.getD L.heat_map }

/-- The `for i, letter_state in enumerate(state_data['letters_state'])`
loop of `restore_state`.  A `None` snapshot slot short-circuits the
`or` before `burning_text_obj.letters[i]` is evaluated; a non-`None`
slot at an index beyond the target's letters raises `IndexError`,
which the enclosing `except` turns into `return False` with the
mutations made so far kept in place. -/
def restoreLoop (saved : List (Option SnapLetter))
    (letters : List (Option VLetter)) (i : ℕ) :
    List (Option VLetter) × Bool :=
  match saved with
  | [] => (letters, true)
  | none :: rest => restoreLoop rest letters (i + 1)
  | some sn :: rest =>
    if h : i < letters.length then
      match letters.get ⟨i, h⟩ with
      | none => restoreLoop rest letters (i + 1)
      | some L => restoreLoop rest (letters.set i (some (applySnap L sn))) (i + 1)
    else (letters, false)

/-- `BurningStateManager.restore_state`: `False` for an unknown
identifier, otherwise the positional merge loop above. -/
def restoreState (m : Manager) (id : String) (obj : VBurningText) :
    VBurningText × Bool :=
  match lookupState m id with
  | none => (obj, false)
  | some snap =>
    let r := restoreLoop snap.letters_state obj.letters 0
    ({ obj with letters := r.1 }, r.2)

/-- The positional merge performed by `restore_state`'s loop, expressed
structurally: slot by slot, a letter paired with a non-`None` snapshot
slot is overwritten via `applySnap`, every other slot is kept; slots
beyond either list are untouched. -/
def mergeSnap : List (Option SnapLetter) → List (Option VLetter) →
    List (Option VLetter)
  | [], ls => ls
  | _ :: _, [] => []
  | sn :: rest, l :: ls =>
    (match sn, l with
     | some sn, some L => some (applySnap L sn)
     | _, _ => l) :: mergeSnap rest ls

/-- Which slots of `_initialize_letters`'s output are real letters:
one slot per character, `None` exactly at spaces. -/
def textPattern (text : String) : List Bool :=
  text.data.map (fun c => !(c == ' '))

def lettersPattern (obj : VBurningText) : List Bool :=
  obj.letters.map Option.isSome

/-- Numeric bounds on a fuel grid: every entry in `[0, 100]`. -/
def gridFuelOK (g : Grid) : Prop :=
  ∀ col ∈ g, ∀ v ∈ col, 0 ≤ v ∧ v ≤ 100

/-- Numeric bounds on a heat grid: every entry nonnegative. -/
def gridHeatOK (g : Grid) : Prop :=
  ∀ col ∈ g, ∀ v ∈ col, 0 ≤ v

def vLetterOK (L : VLetter) : Prop := gridFuelOK L.fuel_map ∧ gridHeatOK L.heat_map

def vLetterOptOK (o : Option VLetter) : Prop :=
  ∀ L, o = some L → vLetterOK L

def vBurningTextOK (obj : VBurningText) : Prop :=
  ∀ o ∈ obj.letters, vLetterOptOK o

def snapLetterOK (sn : SnapLetter) : Prop :=
  (∀ g, sn.fuel_map = some g → gridFuelOK g) ∧
  (∀ g, sn.heat_map = some g → gridHeatOK g)

def snapshotOK (snap : Snapshot) : Prop :=
  ∀ o ∈ snap.letters_state, ∀ sn, o = some sn → snapLetterOK sn

def managerOK (m : Manager) : Prop :=
  ∀ e ∈ m.states, snapshotOK e.2

/-! ## The snapshot manager, heap level

To talk about aliasing, arrays live in a store (a list of grids) and a
letter holds references (store indices) to its two arrays.
`save_state`'s `tolist` dereferences and stores the value;
`restore_state`'s `np.array` allocates a fresh array at the end of the
store and repoints the letter's field at it. -/

abbrev Store := List Grid

structure HLetter where
  char : Char
  posx : ℤ
  posy : ℤ
  fuelRef : ℕ
  heatRef : ℕ

structure HBurningText where
  text : String
  letters : List (Option HLetter)

def readStore (st : Store) (r : ℕ) : Grid := st.getD r []

/-- Allocate a fresh array holding `g`: append it to the store and
return its index. -/
def allocStore (st : Store) (g : Grid) : Store × ℕ := (st ++ [g], st.length)

/-- Heap-level `state_data` of `save_state`: `tolist` reads the arrays
through the store and keeps their values. -/
def hSaveSnap (st : Store) (obj : HBurningText) : Snapshot where
  text := obj.text
  letters_state := obj.letters.map (Option.map (fun L =>
    { char := L.char, posx := L.posx, posy := L.posy,
      fuel_map := some (readStore st L.fuelRef),
      heat_map := some (readStore st L.heatRef) }))

/-- Heap-level `save_state`.  The body only reads, so the store and the
object come back unchanged alongside the grown manager. -/
def hSaveState (m : Manager) (st : Store) (id : String) (obj : HBurningText) :
    Manager × Store × HBurningText :=
  (⟨(id, hSaveSnap st obj) :: m.states⟩, st, obj)

/-- Heap-level restore of one letter: each `np.array(...)` call
allocates a fresh array and the assignment repoints the field. -/
def hApplySnap (st : Store) (L : HLetter) (sn : SnapLetter) : Store × HLetter :=
  let f : Store × HLetter :=
    match sn.fuel_map with
    | some g => let a := allocStore st g; (a.1, { L with fuelRef := a.2 })
    | none => (st, L)
  match sn.heat_map with
  | some g => let a := allocStore f.1 g; (a.1, { f.2 with heatRef := a.2 })
  | none => f

/-- Heap-level restore loop, same control flow as `restoreLoop`. -/
def hRestoreLoop (saved : List (Option SnapLetter)) (st : Store)
    (letters : List (Option HLetter)) (i : ℕ) :
    Store × List (Option HLetter) × Bool :=
  match saved with
  | [] => (st, letters, true)
  | none :: rest => hRestoreLoop rest st letters (i + 1)
  | some sn :: rest =>
    if h : i < letters.length then
      match letters.get ⟨i, h⟩ with
      | none => hRestoreLoop rest st letters (i + 1)
      | some L =>
        let a := hApplySnap st L sn
        hRestoreLoop rest a.1 (letters.set i (some a.2)) (i + 1)
    else (st, letters, false)

/-- Heap-level `restore_state`.  It never writes `self.states`, so the
manager is not part of the result. -/
def hRestoreState (m : Manager) (st : Store) (id : String)
    (obj : HBurningText) : Store × HBurningText × Bool :=
  match lookupState m id with
  | none => (st, obj, false)
  | some snap =>
    let r := hRestoreLoop snap.letters_state st obj.letters 0
    (r.1, { obj with letters := r.2.1 }, r.2.2)

/-- The grids a snapshot holds (the candidate values restore can write). -/
def snapGrids (snap : Snapshot) : List Grid :=
  snap.letters_state.foldr
    (fun o acc =>
      match o with
      | none => acc
      | some sn => (sn.fuel_map.toList ++ sn.heat_map.toList) ++ acc) []

/-! ## The screen-burn transition (settings_screen.py / main_menu.py)

Both files define an identical `ScreenBurnTransition`; the modelled
fields are the ones its `update` mutates besides the three particle
lists, which are pure visual output and feed nothing back. -/

structure SBTransition where
  active : Bool
  reverse_mode : Bool
  complete : Bool
  burn_progress : ℚ
  burn_speed : ℚ
  black_fade_alpha : ℚ
  black_fade_speed : ℚ
  time : ℚ

/-- `ScreenBurnTransition.__init__` (geometry and noise fields omitted:
`update` never writes them). -/
def initSBT : SBTransition where
  active := false
  reverse_mode := false
  complete := false
  burn_progress := 0
  burn_speed := 2
  black_fade_alpha := 0
  black_fade_speed := 8
  time := 0

/-- `ScreenBurnTransition.start(reverse_mode)`. -/
def startSBT (reverse : Bool) (s : SBTransition) : SBTransition :=
  { s with active := true, reverse_mode := reverse,
           burn_progress := if reverse then 1 else 0,
           complete := false, time := 0, black_fade_alpha := 0 }

/-- `ScreenBurnTransition.update(dt)`: inactive is a no-op; once
complete, only the black fade advances (capped at 255); otherwise the
burn progress moves by `burn_speed * dt` and clamps at the end of its
range, setting `complete`. -/
def updateSBT (dt : ℚ) (s : SBTransition) : SBTransition :=
  if s.active = false then s
  else
    let s := { s with time := s.time + dt }
    if s.complete then
      let a := s.black_fade_alpha + s.black_fade_speed * dt * 255
      { s with black_fade_alpha := if 255 ≤ a then 255 else a }
    else if s.reverse_mode then
      let p := s.burn_progress - s.burn_speed * dt
      if p ≤ 0 then { s with burn_progress := 0, complete := true }
      else { s with burn_progress := p }
    else
      let p := s.burn_progress + s.burn_speed * dt
      if 1 ≤ p then { s with burn_progress := 1, complete := true }
      else { s with burn_progress := p }

def runSBT (dts : List ℚ) (s : SBTransition) : SBTransition :=
  dts.foldl (fun s d => updateSBT d s) s

/-! ## Concrete fixtures used by counterexamples and witnesses -/

def onePos : Pos 1 1 := (⟨0, Nat.one_pos⟩, ⟨0, Nat.one_pos⟩)

/-- A 1×1 letter whose single glyph cell is heated to 300 over full fuel. -/
def hot11 : LetterState 1 1 where
  mask := fun _ => true
  heat := fun _ => 300
  fuel := fun _ => 100
  charredGen := none

/-- A 1×1 letter warmed below the ignition point over full fuel. -/
def cold11 : LetterState 1 1 where
  mask := fun _ => true
  heat := fun _ => 100
  fuel := fun _ => 100
  charredGen := none

/-- A 1×1 letter that has already cached its charred texture. -/
def charred11 : LetterState 1 1 where
  mask := fun _ => true
  heat := fun _ => 0
  fuel := fun _ => 0
  charredGen := some 7

/-- A one-cell letter with full fuel (value level). -/
def vFull : VLetter := ⟨'a', 0, 0, [[100]], [[0]]⟩

/-- The same letter after burning out: fuel 0. -/
def vBurnt : VLetter := ⟨'a', 0, 0, [[0]], [[0]]⟩

/-- A second letter, for length-mismatch scenarios. -/
def vOther : VLetter := ⟨'b', 9, 0, [[40]], [[7]]⟩

def vObjFull : VBurningText := ⟨"a", [some vFull]⟩

def vObjBurnt : VBurningText := ⟨"a", [some vBurnt]⟩

def vObjTwo : VBurningText := ⟨"ab", [some vFull, some vOther]⟩

/-- A heap-level one-letter object whose arrays live at store slots 0
and 1. -/
def hLet : HLetter := ⟨'a', 0, 0, 0, 1⟩

def hObj : HBurningText := ⟨"a", [some hLet]⟩

def hStore : Store := [[[100]], [[0]]]

/-! # Theorems -/

/-! ## Clip arithmetic -/

theorem clipLo_eq_max (lo x : ℚ) : clipLo lo x = max lo x := by
  unfold clipLo
  rcases lt_or_le x lo with hlt | hle
  · rw [if_pos hlt, max_eq_left hlt.le]
  · rw [if_neg (not_lt.mpr hle), max_eq_right hle]

theorem clipHi_eq_min (hi x : ℚ) : clipHi hi x = min hi x := by
  unfold clipHi
  rcases lt_or_le hi x with hlt | hle
  · rw [if_pos hlt, min_eq_left hlt.le]
  · rw [if_neg (not_lt.mpr hle), min_eq_right hle]

theorem cooledHeat_nonneg {w h : ℕ} (dt : ℚ) (s : LetterState w h)
    (p : Pos w h) : 0 ≤ cooledHeat dt s p := by
  unfold cooledHeat; rw [clipLo_eq_max]; exact le_max_left _ _

theorem updatedFuel_bounds {w h : ℕ} (dt : ℚ) (s : LetterState w h)
    (p : Pos w h) : 0 ≤ updatedFuel dt s p ∧ updatedFuel dt s p ≤ 100 := by
  unfold updatedFuel
  rw [clipLo_eq_max, clipHi_eq_min]
  constructor
  · exact le_min (by norm_num) (le_max_left _ _)
  · exact min_le_left _ _

/-! ## Evaluation helpers on the 1×1 grid -/

theorem univ_pos11 : (Finset.univ : Finset (Pos 1 1)) = {onePos} := by decide

theorem spreadCount_11 (dt : ℚ) (roll : Pos 1 1 → Bool) (s : LetterState 1 1) :
    spreadCount dt roll s onePos =
      if burning dt s onePos ∧ roll onePos = true then 1 else 0 := by
  unfold spreadCount
  rw [univ_pos11, Finset.filter_singleton]
  have hblk : inSpreadBlock onePos onePos := by unfold inSpreadBlock; omega
  by_cases hb : burning dt s onePos ∧ roll onePos = true
  · rw [if_pos ⟨hb.1, hb.2, hblk⟩, if_pos hb, Finset.card_singleton]
  · rw [if_neg (fun hc => hb ⟨hc.1, hc.2.1⟩), if_neg hb, Finset.card_empty]

theorem hot11_burning (dt : ℚ) (hdt : dt ≤ 2) : burning dt hot11 onePos := by
  constructor
  · unfold cooledHeat clipLo hot11 COOL_RATE IGNITION_POINT
    simp only
    rw [if_neg (by nlinarith)]
    nlinarith
  · unfold hot11; norm_num

/-! ## C1 — numeric bounds after every public operation -/

theorem letterOK_init {w h : ℕ} (mask : Pos w h → Bool) :
    LetterOK (initLetter mask) := by
  intro p
  unfold initLetter
  refine ⟨?_, ?_, le_refl 0⟩ <;> by_cases hm : mask p <;>
    simp [hm]

theorem letterOK_addHeat {w h : ℕ} (lx ly : ℤ) (radius dt : ℚ)
    (s : LetterState w h) (hdt : 0 ≤ dt) (hs : LetterOK s) :
    LetterOK (addHeat lx ly radius dt s) := by
  intro p
  obtain ⟨hf0, hf1, hh⟩ := hs p
  refine ⟨hf0, hf1, ?_⟩
  unfold addHeat
  simp only
  split
  · have : 0 ≤ HEAT_RATE * dt := by
      unfold HEAT_RATE; positivity
    linarith
  · exact hh

theorem letterOK_update {w h : ℕ} (dt : ℚ) (roll : Pos w h → Bool)
    (tex : ℕ) (s : LetterState w h) (hdt : 0 ≤ dt) :
    LetterOK (update dt roll tex s) := by
  intro p
  obtain ⟨h0, h1⟩ := updatedFuel_bounds dt s p
  refine ⟨h0, h1, ?_⟩
  show 0 ≤ cooledHeat dt s p + HEAT_TRANSFER_RATE * dt * spreadCount dt roll s p
  have h2 : (0:ℚ) ≤ HEAT_TRANSFER_RATE * dt * spreadCount dt roll s p := by
    unfold HEAT_TRANSFER_RATE; positivity
  have := cooledHeat_nonneg dt s p
  linarith

theorem applySnap_ok (L : VLetter) (sn : SnapLetter) (hL : vLetterOK L)
    (hsn : snapLetterOK sn) : vLetterOK (applySnap L sn) := by
  unfold applySnap
  constructor
  · show gridFuelOK (sn.fuel_map.getD L.fuel_map)
    cases hg : sn.fuel_map with
    | none => exact hL.1
    | some g => exact hsn.1 g hg
  · show gridHeatOK (sn.heat_map.getD L.heat_map)
    cases hg : sn.heat_map with
    | none => exact hL.2
    | some g => exact hsn.2 g hg

theorem restoreLoop_ok (saved : List (Option SnapLetter))
    (letters : List (Option VLetter)) (i : ℕ)
    (hsaved : ∀ o ∈ saved, ∀ sn, o = some sn → snapLetterOK sn)
    (hlet : ∀ o ∈ letters, vLetterOptOK o) :
    ∀ o ∈ (restoreLoop saved letters i).1, vLetterOptOK o := by
  induction saved generalizing letters i with
  | nil => exact hlet
  | cons head rest ih =>
    cases head with
    | none =>
      exact ih letters (i + 1)
        (fun o ho sn hsn => hsaved o (List.mem_cons_of_mem _ ho) sn hsn) hlet
    | some sn =>
      show ∀ o ∈ (restoreLoop (some sn :: rest) letters i).1, vLetterOptOK o
      rw [restoreLoop]
      split
      case isTrue hi =>
        have hrest : ∀ o ∈ rest, ∀ sn', o = some sn' → snapLetterOK sn' :=
          fun o ho sn' hsn' => hsaved o (List.mem_cons_of_mem _ ho) sn' hsn'
        cases hget : letters.get ⟨i, hi⟩ with
        | none => exact ih letters (i + 1) hrest hlet
        | some L =>
          refine ih _ (i + 1) hrest ?_
          intro o ho
          rcases List.mem_or_eq_of_mem_set ho with hmem | heq
          · exact hlet o hmem
          · subst heq
            intro L' hL'
            injection hL' with hLL
            subst hLL
            have hLmem : some L ∈ letters := hget ▸ letters.get_mem i hi
            exact applySnap_ok L sn
              (hlet (some L) hLmem L rfl)
              (hsaved (some sn) (List.mem_cons_self _ _) sn rfl)
      case isFalse => exact hlet

theorem restoreState_ok (m : Manager) (id : String) (obj : VBurningText)
    (hm : managerOK m) (hobj : vBurningTextOK obj) :
    vBurningTextOK (restoreState m id obj).1 := by
  unfold restoreState
  cases hlook : lookupState m id with
  | none => exact hobj
  | some snap =>
    intro o ho
    have hsnap : snapshotOK snap := by
      unfold lookupState at hlook
      cases hfind : m.states.find? (fun e => e.1 == id) with
      | none => rw [hfind] at hlook; cases hlook
      | some e =>
        rw [hfind] at hlook
        injection hlook with he
        exact he ▸ hm e (List.mem_of_find?_eq_some hfind)
    exact restoreLoop_ok snap.letters_state obj.letters 0 hsnap hobj o ho

theorem saveState_ok (m : Manager) (id : String) (obj : VBurningText)
    (hm : managerOK m) (hobj : vBurningTextOK obj) :
    managerOK (saveState m id obj) := by
  intro e he
  rcases List.mem_cons.mp he with heq | hmem
  · subst heq
    intro o ho sn hsn
    unfold saveSnap at ho
    simp only at ho
    rcases List.mem_map.mp ho with ⟨o', ho', rfl⟩
    cases o' with
    | none => cases hsn
    | some L =>
      injection hsn with hsn
      subst hsn
      have hLOK := hobj (some L) ho' L rfl
      exact ⟨fun g hg => by injection hg with hg; exact hg ▸ hLOK.1,
             fun g hg => by injection hg with hg; exact hg ▸ hLOK.2⟩
  · exact hm e hmem

/-- C1: for every cell of every Letter's grid, after construction and
after every public operation — `add_heat`, `update`, and the state
manager's `save_state`/`restore_state` (which only writes back grids
held in earlier snapshots of valid objects) — fuel stays in `[0, 100]`
and heat stays nonnegative. -/
theorem burning_text_C1_bounds_invariant :
    (∀ (w h : ℕ) (mask : Pos w h → Bool), LetterOK (initLetter mask)) ∧
    (∀ (w h : ℕ) (lx ly : ℤ) (radius dt : ℚ) (s : LetterState w h),
      0 ≤ dt → LetterOK s → LetterOK (addHeat lx ly radius dt s)) ∧
    (∀ (w h : ℕ) (dt : ℚ) (roll : Pos w h → Bool) (tex : ℕ)
      (s : LetterState w h), 0 ≤ dt → LetterOK (update dt roll tex s)) ∧
    (∀ (m : Manager) (id : String) (obj : VBurningText),
      managerOK m → vBurningTextOK obj →
        vBurningTextOK (restoreState m id obj).1) ∧
    (∀ (m : Manager) (id : String) (obj : VBurningText),
      managerOK m → vBurningTextOK obj → managerOK (saveState m id obj)) :=
  ⟨fun _ _ => letterOK_init,
   fun _ _ => letterOK_addHeat,
   fun _ _ => letterOK_update,
   restoreState_ok,
   saveState_ok⟩

theorem burning_text_C1_witness :
    LetterOK (addHeat 3 0 20 1 hot11) ∧
    LetterOK (update 1 (fun _ => true) 0 hot11) :=
  ⟨burning_text_C1_bounds_invariant.2.1 1 1 3 0 20 1 hot11 (by norm_num)
     (fun p => by unfold hot11; norm_num),
   burning_text_C1_bounds_invariant.2.2.1 1 1 1 (fun _ => true) 0 hot11
     (by norm_num)⟩

/-! ## C2 — fuel 0 is terminal for add_heat/update, but not for restore -/

theorem fuelZero_applyOp {w h : ℕ} (op : LetterOp w h) (s : LetterState w h)
    (p : Pos w h) (hz : s.fuel p = 0) : (applyOp op s).fuel p = 0 := by
  cases op with
  | heatOp lx ly radius dt => exact hz
  | updateOp dt roll tex =>
    show updatedFuel dt s p = 0
    have hnb : ¬ burning dt s p := fun hb => by
      have h2 : 0 < s.fuel p := hb.2
      rw [hz] at h2
      exact lt_irrefl 0 h2
    unfold updatedFuel
    rw [if_neg hnb, hz]
    unfold clipLo clipHi
    norm_num

/-- C2 counterexample: the claim quantifies over `restore_state` as
well, but `restore_state` overwrites `fuel_map` with the snapshot's
values.  Save a full letter (fuel 100), burn the target down to fuel 0,
restore: the cell's fuel is 100 again, strictly above 0. -/
theorem burning_text_C2_counterexample :
    vObjBurnt.letters = [some vBurnt] ∧ vBurnt.fuel_map = [[(0 : ℚ)]] ∧
    (restoreState (saveState emptyManager "menu" vObjFull) "menu"
        vObjBurnt).1.letters = [some vFull] ∧
    vFull.fuel_map = [[(100 : ℚ)]] ∧ (0 : ℚ) < 100 :=
  ⟨rfl, rfl, rfl, rfl, by norm_num⟩

/-- C2 (amended): once a cell's fuel reaches 0 it never increases again
under any subsequent sequence of `add_heat` and `update` calls;
`restore_state`, however, overwrites fuel with the saved snapshot's
values, which may be positive. -/
theorem burning_text_C2_fuel_zero_terminal {w h : ℕ} (s : LetterState w h)
    (p : Pos w h) (ops : List (LetterOp w h)) (hz : s.fuel p = 0) :
    (runOps ops s).fuel p = 0 := by
  induction ops generalizing s with
  | nil => exact hz
  | cons op ops ih =>
    show (List.foldl (fun s op => applyOp op s) (applyOp op s) ops).fuel p = 0
    exact ih (applyOp op s) (fuelZero_applyOp op s p hz)

theorem burning_text_C2_witness :
    (runOps [LetterOp.heatOp 0 0 20 1,
             LetterOp.updateOp 1 (fun _ => true) 5] charred11).fuel onePos
      = 0 :=
  burning_text_C2_fuel_zero_terminal charred11 onePos _ rfl

/-! ## C3 — a cell below the ignition point is inert this step -/

/-- C3: in an `update` step with `dt ≥ 0`, a cell whose heat on entry
is strictly below `IGNITION_POINT` is not in the burning mask, keeps
its fuel unchanged (given the standing `0 ≤ fuel ≤ 100` invariant),
and injects no spread heat anywhere: forcing its spread roll to `false`
does not change the result of the step at all. -/
theorem burning_text_C3_below_ignition_inert {w h : ℕ} (dt : ℚ)
    (roll : Pos w h → Bool) (tex : ℕ) (s : LetterState w h) (p : Pos w h)
    (hdt : 0 ≤ dt) (hheat : s.heat p < IGNITION_POINT)
    (hf0 : 0 ≤ s.fuel p) (hf1 : s.fuel p ≤ 100) :
    ¬ burning dt s p ∧
    (update dt roll tex s).fuel p = s.fuel p ∧
    update dt roll tex s
      = update dt (fun q => if q = p then false else roll q) tex s := by
  have hcool : cooledHeat dt s p < IGNITION_POINT := by
    unfold cooledHeat clipLo
    split
    · unfold IGNITION_POINT; norm_num
    · have : 0 ≤ COOL_RATE * dt := by unfold COOL_RATE; positivity
      linarith
  have hnb : ¬ burning dt s p := fun hb => absurd hb.1 (not_le.mpr hcool)
  refine ⟨hnb, ?_, ?_⟩
  · show updatedFuel dt s p = s.fuel p
    unfold updatedFuel
    rw [if_neg hnb, clipLo_eq_max, clipHi_eq_min, max_eq_right hf0,
      min_eq_right hf1]
  · have hsc : spreadCount dt roll s
        = spreadCount dt (fun q => if q = p then false else roll q) s := by
      funext q
      unfold spreadCount
      congr 1
      apply Finset.filter_congr
      intro x _
      by_cases hx : x = p
      · subst hx
        constructor
        · rintro ⟨hb, -, -⟩; exact absurd hb hnb
        · rintro ⟨hb, -, -⟩; exact absurd hb hnb
      · simp [hx]
    unfold update
    rw [hsc]

theorem burning_text_C3_witness :
    ¬ burning 1 cold11 onePos ∧
    (update 1 (fun _ => true) 0 cold11).fuel onePos = cold11.fuel onePos ∧
    update 1 (fun _ => true) 0 cold11
      = update 1 (fun q => if q = onePos then false else true) 0 cold11 :=
  burning_text_C3_below_ignition_inert 1 (fun _ => true) 0 cold11 onePos
    (by norm_num)
    (by unfold cold11 IGNITION_POINT; norm_num)
    (by unfold cold11; norm_num)
    (by unfold cold11; norm_num)

/-! ## C5 — a continuously burning cell runs out of fuel in bounded time -/

theorem max_sub_le (a b : ℚ) (hb : 0 ≤ b) :
    max 0 (max 0 a - b) ≤ max 0 (a - b) := by
  rcases le_or_lt 0 a with ha | ha
  · rw [max_eq_right ha]
  · calc max 0 (max 0 a - b) = max 0 (0 - b) := by rw [max_eq_left ha.le]
    _ = 0 := max_eq_left (by linarith)
    _ ≤ max 0 (a - b) := le_max_left _ _

theorem burnRun_sum_nonneg {w h : ℕ} {p : Pos w h}
    {s : LetterState w h} {dts : List ℚ} {s' : LetterState w h}
    (hrun : BurnRun p s dts s') : 0 ≤ dts.sum := by
  induction hrun with
  | nil s => simp
  | step s s' g dt roll tex dts hdt hheld hrun ih =>
    rw [List.sum_cons]; linarith

theorem burnRun_fuel_bounds {w h : ℕ} {p : Pos w h}
    {s : LetterState w h} {dts : List ℚ} {s' : LetterState w h}
    (hrun : BurnRun p s dts s') :
    0 ≤ s.fuel p → s.fuel p ≤ 100 → 0 ≤ s'.fuel p ∧ s'.fuel p ≤ 100 := by
  induction hrun with
  | nil s => exact fun h0 h1 => ⟨h0, h1⟩
  | step s s' g dt roll tex dts hdt hheld hrun ih =>
    intro _ _
    exact ih (updatedFuel_bounds dt (injectHeat g s) p).1
      (updatedFuel_bounds dt (injectHeat g s) p).2

theorem burnRun_fuel_le {w h : ℕ} {p : Pos w h}
    {s : LetterState w h} {dts : List ℚ} {s' : LetterState w h}
    (hrun : BurnRun p s dts s') :
    0 ≤ s.fuel p → s.fuel p ≤ 100 →
      s'.fuel p ≤ max 0 (s.fuel p - FUEL_CONSUMPTION_RATE * 100 * dts.sum) := by
  induction hrun with
  | nil s =>
    intro hf0 _
    rw [List.sum_nil, mul_zero, sub_zero, max_eq_right hf0]
  | step s s' g dt roll tex dts hdt hheld hrun ih =>
    intro hf0 hf1
    have htf : (injectHeat g s).fuel p = s.fuel p := rfl
    have hnew := updatedFuel_bounds dt (injectHeat g s) p
    have hsum0 : 0 ≤ dts.sum := burnRun_sum_nonneg hrun
    have hCsum : 0 ≤ FUEL_CONSUMPTION_RATE * 100 * dts.sum := by
      unfold FUEL_CONSUMPTION_RATE; positivity
    have key : updatedFuel dt (injectHeat g s) p
        ≤ max 0 (s.fuel p - FUEL_CONSUMPTION_RATE * 100 * dt) := by
      rcases eq_or_lt_of_le hf0 with hz | hpos
      · have hnb : ¬ burning dt (injectHeat g s) p := fun hb => by
          have h2 : 0 < s.fuel p := hb.2
          rw [← hz] at h2
          exact lt_irrefl 0 h2
        unfold updatedFuel
        rw [if_neg hnb]
        show clipHi 100 (clipLo 0 (s.fuel p)) ≤ _
        rw [← hz]
        unfold clipLo clipHi
        norm_num
      · have hb : burning dt (injectHeat g s) p := ⟨hheld, hpos⟩
        unfold updatedFuel
        rw [if_pos hb]
        show clipHi 100 (clipLo 0 (s.fuel p - FUEL_CONSUMPTION_RATE * 100 * dt)) ≤ _
        rw [clipLo_eq_max, clipHi_eq_min]
        have hC : 0 ≤ FUEL_CONSUMPTION_RATE * 100 * dt := by
          unfold FUEL_CONSUMPTION_RATE; positivity
        exact le_of_eq (min_eq_right (max_le (by norm_num) (by linarith)))
    calc s'.fuel p
        ≤ max 0 ((update dt roll tex (injectHeat g s)).fuel p
            - FUEL_CONSUMPTION_RATE * 100 * dts.sum) := ih hnew.1 hnew.2
      _ ≤ max 0 (max 0 (s.fuel p - FUEL_CONSUMPTION_RATE * 100 * dt)
            - FUEL_CONSUMPTION_RATE * 100 * dts.sum) :=
          max_le_max le_rfl (by
            have : (update dt roll tex (injectHeat g s)).fuel p
                = updatedFuel dt (injectHeat g s) p := rfl
            linarith [key])
      _ ≤ max 0 ((s.fuel p - FUEL_CONSUMPTION_RATE * 100 * dt)
            - FUEL_CONSUMPTION_RATE * 100 * dts.sum) := max_sub_le _ _ hCsum
      _ = max 0 (s.fuel p - FUEL_CONSUMPTION_RATE * 100 * (dt :: dts).sum) := by
          rw [List.sum_cons]; ring_nf

/-- C5: along any run of `update` steps (with arbitrary external heat
injections and arbitrary spread rolls) during which the cell is held at
burning heat, a cell starting at fuel 100 is at fuel 0 as soon as the
accumulated `dt` reaches `100 / (FUEL_CONSUMPTION_RATE * 100)`
(= 2 simulated seconds). -/
theorem burning_text_C5_burnout {w h : ℕ} {p : Pos w h}
    {s : LetterState w h} {dts : List ℚ} {s' : LetterState w h}
    (hrun : BurnRun p s dts s') (hstart : s.fuel p = 100)
    (htime : 100 / (FUEL_CONSUMPTION_RATE * 100) ≤ dts.sum) :
    s'.fuel p = 0 := by
  have hf0 : 0 ≤ s.fuel p := by rw [hstart]; norm_num
  have hf1 : s.fuel p ≤ 100 := le_of_eq hstart
  have h1 := burnRun_fuel_le hrun hf0 hf1
  have htwo : (2 : ℚ) ≤ dts.sum := by
    unfold FUEL_CONSUMPTION_RATE at htime
    norm_num at htime
    exact htime
  have h2 : max 0 (s.fuel p - FUEL_CONSUMPTION_RATE * 100 * dts.sum) = 0 := by
    rw [hstart]
    apply max_eq_left
    unfold FUEL_CONSUMPTION_RATE
    linarith
  exact le_antisymm (h2 ▸ h1) (burnRun_fuel_bounds hrun hf0 hf1).1

theorem burning_text_C5_witness :
    (update 2 (fun _ => true) 0 (injectHeat (fun _ => 0) hot11)).fuel onePos
      = 0 :=
  burning_text_C5_burnout
    (BurnRun.step hot11 _ (fun _ => 0) 2 (fun _ => true) 0 []
      (by norm_num)
      (by unfold cooledHeat clipLo injectHeat hot11 COOL_RATE IGNITION_POINT
          norm_num)
      (BurnRun.nil _))
    rfl
    (by unfold FUEL_CONSUMPTION_RATE; norm_num)

/-! ## C6 — the charred texture is generated at most once -/

theorem charred_applyOp {w h : ℕ} (op : LetterOp w h) (s : LetterState w h)
    (t : ℕ) (hs : s.charredGen = some t) : (applyOp op s).charredGen = some t := by
  cases op with
  | heatOp lx ly radius dt => exact hs
  | updateOp dt roll tex =>
    show (update dt roll tex s).charredGen = some t
    unfold update
    simp only
    rw [if_neg (fun hc => by rw [hs] at hc; exact Option.noConfusion hc.1)]
    exact hs

/-- C6: once `charred_texture` is non-`None` (holding some texture
object `t`), no later sequence of `add_heat`/`update` calls ever
regenerates or replaces it — the same object `t` is kept forever. -/
theorem burning_text_C6_charred_once {w h : ℕ} (s : LetterState w h)
    (t : ℕ) (ops : List (LetterOp w h)) (hs : s.charredGen = some t) :
    (runOps ops s).charredGen = some t := by
  induction ops generalizing s with
  | nil => exact hs
  | cons op ops ih =>
    show (List.foldl (fun s op => applyOp op s) (applyOp op s) ops).charredGen
      = some t
    exact ih (applyOp op s) (charred_applyOp op s t hs)

theorem burning_text_C6_witness :
    (runOps [LetterOp.updateOp 1 (fun _ => true) 9] charred11).charredGen
      = some 7 :=
  burning_text_C6_charred_once charred11 7 _ rfl

/-! ## C4 — spread heats the whole clamped 3×3 block, centre included -/

theorem pos11_eq : ∀ q : Pos 1 1, q = onePos := by decide

/-- C4 counterexample: on a 1×1 grid the burning cell has no
8-connected neighbours at all, so under the claim a passing spread roll
would leave its heat at the cooled value 250; the code's slice
`[max(0,x-1):min(w,x+2), max(0,y-1):min(h,y+2)]` contains the centre,
and the cell's own heat ends at `250 + HEAT_TRANSFER_RATE * dt = 1050`. -/
theorem burning_text_C4_counterexample :
    burning 1 hot11 onePos ∧
    cooledHeat 1 hot11 onePos = 250 ∧
    (update 1 (fun _ => true) 0 hot11).heat onePos = 1050 ∧
    (1050 : ℚ) ≠ 250 := by
  refine ⟨hot11_burning 1 (by norm_num), ?_, ?_, by norm_num⟩
  · unfold cooledHeat clipLo hot11 COOL_RATE
    norm_num
  · show cooledHeat 1 hot11 onePos
        + HEAT_TRANSFER_RATE * 1 * spreadCount 1 (fun _ => true) hot11 onePos
      = 1050
    rw [spreadCount_11, if_pos ⟨hot11_burning 1 (by norm_num), rfl⟩]
    unfold cooledHeat clipLo hot11 COOL_RATE HEAT_TRANSFER_RATE
    norm_num

/-- C4 (amended): each burning cell that passes its spread roll adds
`HEAT_TRANSFER_RATE * dt` heat to every cell of its 3×3 neighbourhood
clamped to the grid bounds — *including its own position*, which the
slice does not exclude.  Stated for a step in which `b` is the unique
burning-and-rolled cell. -/
theorem burning_text_C4_spread_block {w h : ℕ} (dt : ℚ)
    (roll : Pos w h → Bool) (tex : ℕ) (s : LetterState w h) (b : Pos w h)
    (hb : burning dt s b) (hr : roll b = true)
    (huniq : ∀ q, burning dt s q → roll q = true → q = b) :
    (∀ q, (update dt roll tex s).heat q
        = cooledHeat dt s q
          + (if inSpreadBlock b q then HEAT_TRANSFER_RATE * dt else 0)) ∧
    inSpreadBlock b b := by
  constructor
  · intro q
    show cooledHeat dt s q + HEAT_TRANSFER_RATE * dt * spreadCount dt roll s q
      = _
    have hfil : Finset.univ.filter
        (fun x : Pos w h => burning dt s x ∧ roll x = true ∧ inSpreadBlock x q)
        = if inSpreadBlock b q then {b} else ∅ := by
      ext x
      simp only [Finset.mem_filter, Finset.mem_univ, true_and]
      split
      case isTrue hblk =>
        simp only [Finset.mem_singleton]
        constructor
        · rintro ⟨hbx, hrx, -⟩
          exact huniq x hbx hrx
        · rintro rfl
          exact ⟨hb, hr, hblk⟩
      case isFalse hblk =>
        simp only [Finset.not_mem_empty, iff_false]
        rintro ⟨hbx, hrx, hxq⟩
        exact hblk (huniq x hbx hrx ▸ hxq)
    unfold spreadCount
    rw [hfil]
    split
    · rw [Finset.card_singleton]
      push_cast
      ring
    · rw [Finset.card_empty]
      push_cast
      ring
  · unfold inSpreadBlock
    omega

/-! ## The restore loop as a positional merge -/

theorem mergeSnap_nil_right (saved : List (Option SnapLetter)) :
    mergeSnap saved [] = [] := by
  cases saved <;> rfl

theorem mergeSnap_cons_none (rest : List (Option SnapLetter))
    (l : Option VLetter) (ls : List (Option VLetter)) :
    mergeSnap (none :: rest) (l :: ls) = l :: mergeSnap rest ls := by
  cases l <;> rfl

theorem mergeSnap_cons_some_none (sn : SnapLetter)
    (rest : List (Option SnapLetter)) (ls : List (Option VLetter)) :
    mergeSnap (some sn :: rest) (none :: ls) = none :: mergeSnap rest ls := rfl

theorem mergeSnap_cons_some_some (sn : SnapLetter)
    (rest : List (Option SnapLetter)) (L : VLetter)
    (ls : List (Option VLetter)) :
    mergeSnap (some sn :: rest) (some L :: ls)
      = some (applySnap L sn) :: mergeSnap rest ls := rfl

theorem mergeSnap_length (saved : List (Option SnapLetter))
    (letters : List (Option VLetter)) :
    (mergeSnap saved letters).length = letters.length := by
  induction saved generalizing letters with
  | nil => rfl
  | cons sn rest ih =>
    cases letters with
    | nil => rw [mergeSnap_nil_right]
    | cons l ls =>
      cases sn with
      | none => rw [mergeSnap_cons_none]; simp [ih ls]
      | some sn =>
        cases l with
        | none => rw [mergeSnap_cons_some_none]; simp [ih ls]
        | some L => rw [mergeSnap_cons_some_some]; simp [ih ls]

/-- A slot the source skips — `None` on either side, or beyond the end
of the snapshot — comes through the merge unchanged. -/
theorem mergeSnap_skip (saved : List (Option SnapLetter))
    (letters : List (Option VLetter)) (j : ℕ)
    (hskip : saved[j]? = some none ∨ letters[j]? = some none
      ∨ saved.length ≤ j) :
    (mergeSnap saved letters)[j]? = letters[j]? := by
  induction saved generalizing letters j with
  | nil => rfl
  | cons sn rest ih =>
    cases letters with
    | nil => rw [mergeSnap_nil_right]
    | cons l ls =>
      cases j with
      | zero =>
        rcases hskip with hs | hs | hs
        · simp only [List.getElem?_cons_zero, Option.some.injEq] at hs
          subst hs
          rw [mergeSnap_cons_none]
          simp
        · simp only [List.getElem?_cons_zero, Option.some.injEq] at hs
          subst hs
          cases sn with
          | none => rw [mergeSnap_cons_none]; simp
          | some sn => rw [mergeSnap_cons_some_none]; simp
        · simp at hs
      | succ j =>
        have hshift : rest[j]? = some none ∨ ls[j]? = some none
            ∨ rest.length ≤ j := by
          rcases hskip with hs | hs | hs
          · exact Or.inl (by simpa using hs)
          · exact Or.inr (Or.inl (by simpa using hs))
          · exact Or.inr (Or.inr (by simpa using hs))
        cases sn with
        | none =>
          rw [mergeSnap_cons_none]
          simpa using ih ls j hshift
        | some sn =>
          cases l with
          | none => rw [mergeSnap_cons_some_none]; simpa using ih ls j hshift
          | some L => rw [mergeSnap_cons_some_some]; simpa using ih ls j hshift

/-- A matched pair of slots is overwritten via `applySnap`. -/
theorem mergeSnap_apply (saved : List (Option SnapLetter))
    (letters : List (Option VLetter)) (j : ℕ) (sn : SnapLetter) (L : VLetter)
    (hs : saved[j]? = some (some sn)) (hl : letters[j]? = some (some L)) :
    (mergeSnap saved letters)[j]? = some (some (applySnap L sn)) := by
  induction saved generalizing letters j with
  | nil => simp at hs
  | cons sn0 rest ih =>
    cases letters with
    | nil => simp at hl
    | cons l ls =>
      cases j with
      | zero =>
        simp only [List.getElem?_cons_zero, Option.some.injEq] at hs hl
        subst hs; subst hl
        rw [mergeSnap_cons_some_some]
        simp
      | succ j =>
        have hs' : rest[j]? = some (some sn) := by simpa using hs
        have hl' : ls[j]? = some (some L) := by simpa using hl
        cases sn0 with
        | none => rw [mergeSnap_cons_none]; simpa using ih ls j hs' hl'
        | some sn0 =>
          cases l with
          | none => rw [mergeSnap_cons_some_none]; simpa using ih ls j hs' hl'
          | some L0 =>
            rw [mergeSnap_cons_some_some]
            simpa using ih ls j hs' hl'

theorem take_succ_of_lt {α : Type} (l : List α) (i : ℕ) (h : i < l.length) :
    l.take (i + 1) = l.take i ++ [l[i]] := by
  rw [List.take_succ, List.getElem?_eq_getElem h]
  rfl

theorem restoreLoop_cons_none (rest : List (Option SnapLetter))
    (letters : List (Option VLetter)) (i : ℕ) :
    restoreLoop (none :: rest) letters i = restoreLoop rest letters (i + 1) := rfl

theorem restoreLoop_cons_some_lt_none {sn : SnapLetter}
    {rest : List (Option SnapLetter)} {letters : List (Option VLetter)}
    {i : ℕ} (h : i < letters.length) (hg : letters.get ⟨i, h⟩ = none) :
    restoreLoop (some sn :: rest) letters i
      = restoreLoop rest letters (i + 1) := by
  simp only [restoreLoop]
  rw [dif_pos h, hg]

theorem restoreLoop_cons_some_lt_some {sn : SnapLetter}
    {rest : List (Option SnapLetter)} {letters : List (Option VLetter)}
    {i : ℕ} {L : VLetter} (h : i < letters.length)
    (hg : letters.get ⟨i, h⟩ = some L) :
    restoreLoop (some sn :: rest) letters i
      = restoreLoop rest (letters.set i (some (applySnap L sn))) (i + 1) := by
  simp only [restoreLoop]
  rw [dif_pos h, hg]

theorem restoreLoop_cons_some_ge {sn : SnapLetter}
    {rest : List (Option SnapLetter)} {letters : List (Option VLetter)}
    {i : ℕ} (h : ¬ i < letters.length) :
    restoreLoop (some sn :: rest) letters i = (letters, false) := by
  simp only [restoreLoop]
  rw [dif_neg h]

/-- The loop of `restore_state` computes exactly the positional merge:
the letters list becomes `mergeSnap` of the saved slots over the suffix
from `i`, and the returned flag is `True` iff no non-`None` saved slot
falls beyond the target's letters (the source's `IndexError` case). -/
theorem restoreLoop_eq (saved : List (Option SnapLetter)) :
    ∀ (letters : List (Option VLetter)) (i : ℕ),
    (restoreLoop saved letters i).1
        = letters.take i ++ mergeSnap saved (letters.drop i) ∧
    ((restoreLoop saved letters i).2 = true ↔
      ∀ j sn, saved[j]? = some (some sn) → i + j < letters.length) := by
  induction saved with
  | nil =>
    intro letters i
    constructor
    · show letters = _
      rw [show mergeSnap [] (letters.drop i) = letters.drop i from rfl,
        List.take_append_drop]
    · simp [restoreLoop]
  | cons hd rest ih =>
    intro letters i
    cases hd with
    | none =>
      rw [restoreLoop_cons_none]
      obtain ⟨ih1, ih2⟩ := ih letters (i + 1)
      constructor
      · rw [ih1]
        rcases Nat.lt_or_ge i letters.length with hlen | hlen
        · rw [take_succ_of_lt letters i hlen, List.drop_eq_getElem_cons hlen,
            mergeSnap_cons_none, List.append_assoc, List.singleton_append]
        · rw [List.drop_eq_nil_of_le hlen,
            List.drop_eq_nil_of_le (by omega : letters.length ≤ i + 1),
            mergeSnap_nil_right, mergeSnap_nil_right,
            List.take_of_length_le hlen,
            List.take_of_length_le (by omega : letters.length ≤ i + 1)]
      · rw [ih2]
        constructor
        · intro hall j sn hj
          cases j with
          | zero => simp at hj
          | succ j =>
            have := hall j sn (by simpa using hj)
            omega
        · intro hall j sn hj
          have := hall (j + 1) sn (by simpa using hj)
          omega
    | some sn =>
      by_cases hlen : i < letters.length
      · cases hget : letters.get ⟨i, hlen⟩ with
        | none =>
          rw [restoreLoop_cons_some_lt_none hlen hget]
          obtain ⟨ih1, ih2⟩ := ih letters (i + 1)
          have hget' : letters[i] = none := by simpa using hget
          constructor
          · rw [ih1, take_succ_of_lt letters i hlen,
              List.drop_eq_getElem_cons hlen, hget', mergeSnap_cons_some_none]
            simp
          · rw [ih2]
            constructor
            · intro hall j sn' hj
              cases j with
              | zero => omega
              | succ j =>
                have := hall j sn' (by simpa using hj)
                omega
            · intro hall j sn' hj
              have := hall (j + 1) sn' (by simpa using hj)
              omega
        | some L =>
          rw [restoreLoop_cons_some_lt_some hlen hget]
          obtain ⟨ih1, ih2⟩ :=
            ih (letters.set i (some (applySnap L sn))) (i + 1)
          have hset := List.set_eq_take_cons_drop (some (applySnap L sn)) hlen
          have htklen : (letters.take i).length = i := by
            rw [List.length_take]; omega
          have hA : (letters.set i (some (applySnap L sn))).take (i + 1)
              = letters.take i ++ [some (applySnap L sn)] := by
            rw [hset, List.take_append_eq_append_take,
              List.take_of_length_le (le_of_eq_of_le htklen (by omega)),
              htklen, show i + 1 - i = 1 by omega]
            rfl
          have hB : (letters.set i (some (applySnap L sn))).drop (i + 1)
              = letters.drop (i + 1) := by
            rw [hset, List.drop_append_eq_append_drop,
              List.drop_eq_nil_of_le (le_of_eq_of_le htklen (by omega)),
              htklen, show i + 1 - i = 1 by omega]
            rfl
          have hget' : letters[i] = some L := by simpa using hget
          constructor
          · rw [ih1, hA, hB, List.drop_eq_getElem_cons hlen, hget',
              mergeSnap_cons_some_some]
            simp
          · rw [ih2]
            constructor
            · intro hall j sn' hj
              cases j with
              | zero => omega
              | succ j =>
                have := hall j sn' (by simpa using hj)
                simp only [List.length_set] at this
                omega
            · intro hall j sn' hj
              have := hall (j + 1) sn' (by simpa using hj)
              simp only [List.length_set]
              omega
      · rw [restoreLoop_cons_some_ge hlen]
        constructor
        · show letters = _
          rw [List.drop_eq_nil_of_le (by omega : letters.length ≤ i),
            mergeSnap_nil_right,
            List.take_of_length_le (by omega : letters.length ≤ i),
            List.append_nil]
        · constructor
          · intro hfalse
            exact absurd hfalse (by simp)
          · intro hall
            have := hall 0 sn (by simp)
            omega

/-- A freshly saved identifier is found, holding the snapshot of the
saved object. -/
theorem lookup_saveState (m : Manager) (id : String) (obj : VBurningText) :
    lookupState (saveState m id obj) id = some (saveSnap obj) := by
  unfold lookupState saveState
  simp [List.find?]

theorem restoreState_not_found (m : Manager) (id : String)
    (obj : VBurningText) (hnone : lookupState m id = none) :
    restoreState m id obj = (obj, false) := by
  unfold restoreState
  rw [hnone]

theorem restoreState_found (m : Manager) (id : String) (obj : VBurningText)
    (snap : Snapshot) (hfound : lookupState m id = some snap) :
    (restoreState m id obj).1.text = obj.text ∧
    (restoreState m id obj).1.letters
        = mergeSnap snap.letters_state obj.letters ∧
    ((restoreState m id obj).2 = true ↔
      ∀ j sn, snap.letters_state[j]? = some (some sn)
        → j < obj.letters.length) := by
  unfold restoreState
  rw [hfound]
  obtain ⟨h1, h2⟩ := restoreLoop_eq snap.letters_state obj.letters 0
  refine ⟨rfl, ?_, ?_⟩
  · simpa using h1
  · simpa using h2

/-! ## C7 — snapshot round trip onto a same-text object -/

/-- C7: after `save_state(id)` on `S`, calling `restore_state(id)` on a
freshly constructed object `T` with the same literal text (hence the
same letter/space slot pattern, which is all `_initialize_letters`
derives from the text) succeeds, and every slot of `T` afterwards holds
exactly the per-cell fuel and heat arrays `S` had at save time. -/
theorem burning_text_C7_roundtrip (m : Manager) (id : String)
    (obj obj2 : VBurningText)
    (htext : obj2.text = obj.text)
    (hpat : lettersPattern obj = textPattern obj.text)
    (hpat2 : lettersPattern obj2 = textPattern obj2.text) :
    (restoreState (saveState m id obj) id obj2).2 = true ∧
    ∀ j : ℕ, ((restoreState (saveState m id obj) id obj2).1.letters[j]?).map
        (Option.map (fun L : VLetter => (L.fuel_map, L.heat_map)))
      = (obj.letters[j]?).map
          (Option.map (fun L : VLetter => (L.fuel_map, L.heat_map))) := by
  obtain ⟨-, hletters, hflag⟩ := restoreState_found (saveState m id obj) id
    obj2 (saveSnap obj) (lookup_saveState m id obj)
  have hlen : obj.letters.length = obj2.letters.length := by
    have h1 := congrArg List.length hpat
    have h2 := congrArg List.length hpat2
    simp only [lettersPattern, textPattern, List.length_map] at h1 h2
    rw [htext] at h2
    omega
  have hsome : ∀ j : ℕ, (obj.letters[j]?).map Option.isSome
      = (obj2.letters[j]?).map Option.isSome := by
    intro j
    have hp : lettersPattern obj = lettersPattern obj2 := by
      rw [hpat, hpat2, htext]
    simpa only [lettersPattern, List.getElem?_map]
      using congrArg (fun l => l[j]?) hp
  have hsaved : ∀ j : ℕ, (saveSnap obj).letters_state[j]?
      = (obj.letters[j]?).map (Option.map (fun L =>
          ({ char := L.char, posx := L.posx, posy := L.posy,
             fuel_map := some L.fuel_map,
             heat_map := some L.heat_map } : SnapLetter))) := by
    intro j
    simp [saveSnap, List.getElem?_map]
  constructor
  · rw [hflag]
    intro j sn hj
    by_cases hjl : j < obj.letters.length
    · omega
    · rw [hsaved j, List.getElem?_eq_none (by omega)] at hj
      simp at hj
  · intro j
    rw [hletters]
    by_cases hjl : j < obj.letters.length
    · have hjl2 : j < obj2.letters.length := by omega
      have ho : obj.letters[j]? = some obj.letters[j] :=
        List.getElem?_eq_getElem hjl
      have ho2 : obj2.letters[j]? = some obj2.letters[j] :=
        List.getElem?_eq_getElem hjl2
      have hsj := hsome j
      rw [ho, ho2] at hsj
      simp only [Option.map_some'] at hsj
      injection hsj with hsj
      cases hL : obj.letters[j] with
      | none =>
        have hL2 : obj2.letters[j] = none := by
          rw [hL] at hsj
          cases h2 : obj2.letters[j] with
          | none => rfl
          | some _ => rw [h2] at hsj; simp at hsj
        rw [mergeSnap_skip _ _ j (Or.inr (Or.inl (by rw [ho2, hL2]))), ho2,
          hL2, ho, hL]
      | some L =>
        have hL2 : ∃ L2, obj2.letters[j] = some L2 := by
          rw [hL] at hsj
          cases h2 : obj2.letters[j] with
          | none => rw [h2] at hsj; simp at hsj
          | some L2 => exact ⟨L2, rfl⟩
        obtain ⟨L2, hL2⟩ := hL2
        have happ := mergeSnap_apply (saveSnap obj).letters_state obj2.letters
          j _ L2 (by rw [hsaved j, ho, hL]; rfl) (by rw [ho2, hL2])
        rw [happ, ho, hL]
        rfl
    · have hnone : obj.letters[j]? = none := List.getElem?_eq_none (by omega)
      have hnone2 : (mergeSnap (saveSnap obj).letters_state obj2.letters)[j]?
          = none :=
        List.getElem?_eq_none (by rw [mergeSnap_length]; omega)
      rw [hnone, hnone2]

theorem burning_text_C7_witness :
    (restoreState (saveState emptyManager "scene" vObjFull) "scene"
        vObjBurnt).2 = true ∧
    ((restoreState (saveState emptyManager "scene" vObjFull) "scene"
        vObjBurnt).1.letters[0]?).map
          (Option.map (fun L : VLetter => (L.fuel_map, L.heat_map)))
      = (vObjFull.letters[0]?).map
          (Option.map (fun L : VLetter => (L.fuel_map, L.heat_map))) :=
  ⟨(burning_text_C7_roundtrip emptyManager "scene" vObjFull vObjBurnt
      rfl rfl rfl).1,
   (burning_text_C7_roundtrip emptyManager "scene" vObjFull vObjBurnt
      rfl rfl rfl).2 0⟩

/-! ## C8 — restore is a best-effort positional merge -/

/-- C8 counterexample: save a two-letter object, restore onto a
one-letter target.  The in-range slot 0 *is* applied (the target's
letter now carries the saved fuel map), yet the operation reports
`False` — the source's `IndexError` is caught and turned into a failure
return — contradicting "reports success for the slots it did apply". -/
theorem burning_text_C8_counterexample :
    (restoreState (saveState emptyManager "k" vObjTwo) "k" vObjBurnt).2
      = false ∧
    (restoreState (saveState emptyManager "k" vObjTwo) "k"
        vObjBurnt).1.letters = [some vFull] ∧
    vFull.fuel_map ≠ vBurnt.fuel_map := by
  refine ⟨rfl, rfl, ?_⟩
  norm_num [vFull, vBurnt]

/-- C8 (amended): restore with a never-saved identifier returns `False`
and leaves the target unchanged; with a found snapshot it performs a
best-effort positional merge — `None` slots on either side and slots
beyond the snapshot are skipped silently, matched slots are overwritten
from the snapshot — and it reports `True` exactly when no non-`None`
snapshot slot lies beyond the target's letters list; a non-`None` slot
beyond the end makes it report `False` even though every in-range slot
was still applied (the merge is unaffected). -/
theorem burning_text_C8_best_effort_merge :
    (∀ (m : Manager) (id : String) (obj : VBurningText),
      lookupState m id = none → restoreState m id obj = (obj, false)) ∧
    (∀ (m : Manager) (id : String) (obj : VBurningText) (snap : Snapshot),
      lookupState m id = some snap →
      (restoreState m id obj).1.text = obj.text ∧
      (restoreState m id obj).1.letters
          = mergeSnap snap.letters_state obj.letters ∧
      ((restoreState m id obj).2 = true ↔
        ∀ j sn, snap.letters_state[j]? = some (some sn)
          → j < obj.letters.length)) ∧
    (∀ (saved : List (Option SnapLetter)) (letters : List (Option VLetter))
      (j : ℕ), saved[j]? = some none ∨ letters[j]? = some none
        ∨ saved.length ≤ j →
      (mergeSnap saved letters)[j]? = letters[j]?) ∧
    (∀ (saved : List (Option SnapLetter)) (letters : List (Option VLetter))
      (j : ℕ) (sn : SnapLetter) (L : VLetter),
      saved[j]? = some (some sn) → letters[j]? = some (some L) →
      (mergeSnap saved letters)[j]? = some (some (applySnap L sn))) :=
  ⟨restoreState_not_found, restoreState_found, mergeSnap_skip, mergeSnap_apply⟩

theorem burning_text_C8_witness :
    restoreState emptyManager "X" vObjFull = (vObjFull, false) :=
  burning_text_C8_best_effort_merge.1 emptyManager "X" vObjFull rfl

/-! ## C9 — the outward screen-burn transition completes on time -/

theorem updateSBT_of_complete (dt : ℚ) (s : SBTransition)
    (ha : s.active = true) (hc : s.complete = true) :
    (updateSBT dt s).complete = true ∧
    (updateSBT dt s).burn_progress = s.burn_progress ∧
    (updateSBT dt s).active = true := by
  refine ⟨?_, ?_, ?_⟩ <;> simp [updateSBT, ha, hc]

theorem runSBT_of_complete (dts : List ℚ) : ∀ s : SBTransition,
    s.active = true → s.complete = true →
    (runSBT dts s).complete = true ∧
    (runSBT dts s).burn_progress = s.burn_progress := by
  induction dts with
  | nil => exact fun s _ hc => ⟨hc, rfl⟩
  | cons d rest ih =>
    intro s ha hc
    obtain ⟨h1, h2, h3⟩ := updateSBT_of_complete d s ha hc
    obtain ⟨h4, h5⟩ := ih (updateSBT d s) h3 h1
    exact ⟨h4, by rw [show runSBT (d :: rest) s = runSBT rest (updateSBT d s)
      from rfl, h5, h2]⟩

theorem runSBT_outward : ∀ (dts : List ℚ) (s : SBTransition),
    (∀ d ∈ dts, 0 < d) → s.active = true → s.reverse_mode = false →
    s.complete = false → 0 < s.burn_speed → 0 ≤ s.burn_progress →
    s.burn_progress < 1 →
    (s.burn_progress + s.burn_speed * dts.sum < 1 →
      (runSBT dts s).complete = false ∧
      (runSBT dts s).burn_progress
        = s.burn_progress + s.burn_speed * dts.sum) ∧
    (1 ≤ s.burn_progress + s.burn_speed * dts.sum →
      (runSBT dts s).complete = true ∧ (runSBT dts s).burn_progress = 1) := by
  intro dts
  induction dts with
  | nil =>
    intro s _ _ _ hc _ h0 h1
    constructor
    · intro _
      refine ⟨hc, ?_⟩
      show s.burn_progress = s.burn_progress + s.burn_speed * ([] : List ℚ).sum
      simp
    · intro hge
      simp only [List.sum_nil, mul_zero, add_zero] at hge
      linarith
  | cons d rest ih =>
    intro s hpos ha hr hc hsp h0 h1
    have hd : 0 < d := hpos d (List.mem_cons_self _ _)
    have hrest : ∀ x ∈ rest, 0 < x := fun x hx =>
      hpos x (List.mem_cons_of_mem _ hx)
    have hrsum : 0 ≤ rest.sum := List.sum_nonneg (fun x hx => (hrest x hx).le)
    have hstep : runSBT (d :: rest) s = runSBT rest (updateSBT d s) := rfl
    by_cases hfin : 1 ≤ s.burn_progress + s.burn_speed * d
    · have hupd : updateSBT d s
          = { s with time := s.time + d, burn_progress := 1,
                     complete := true } := by
        simp [updateSBT, ha, hc, hr, hfin]
      obtain ⟨hcomp, hprog⟩ := runSBT_of_complete rest (updateSBT d s)
        (by rw [hupd]; exact ha) (by rw [hupd])
      constructor
      · intro hlt
        exfalso
        rw [List.sum_cons, mul_add] at hlt
        have : 0 ≤ s.burn_speed * rest.sum := mul_nonneg hsp.le hrsum
        linarith
      · intro _
        refine ⟨by rw [hstep]; exact hcomp, ?_⟩
        rw [hstep, hprog, hupd]
    · push_neg at hfin
      have hupd : updateSBT d s
          = { s with time := s.time + d,
                     burn_progress := s.burn_progress + s.burn_speed * d } := by
        simp [updateSBT, ha, hc, hr, not_le.mpr hfin]
      have hprog0 : 0 ≤ s.burn_progress + s.burn_speed * d :=
        add_nonneg h0 (mul_nonneg hsp.le hd.le)
      obtain ⟨ihlt, ihge⟩ := ih (updateSBT d s) hrest
        (by rw [hupd]; exact ha) (by rw [hupd]; exact hr)
        (by rw [hupd]; exact hc)
        (by rw [hupd]; exact hsp) (by rw [hupd]; exact hprog0)
        (by rw [hupd]; exact hfin)
      constructor
      · intro hlt
        rw [List.sum_cons, mul_add, ← add_assoc] at hlt
        have hlt' : (updateSBT d s).burn_progress
            + (updateSBT d s).burn_speed * rest.sum < 1 := by
          rw [hupd]; exact hlt
        obtain ⟨ha1, ha2⟩ := ihlt hlt'
        refine ⟨by rw [hstep]; exact ha1, ?_⟩
        rw [hstep, ha2, hupd]
        show s.burn_progress + s.burn_speed * d + s.burn_speed * rest.sum = _
        rw [List.sum_cons, mul_add, ← add_assoc]
      · intro hge
        rw [List.sum_cons, mul_add, ← add_assoc] at hge
        have hge' : 1 ≤ (updateSBT d s).burn_progress
            + (updateSBT d s).burn_speed * rest.sum := by
          rw [hupd]; exact hge
        obtain ⟨hb1, hb2⟩ := ihge hge'
        exact ⟨by rw [hstep]; exact hb1, by rw [hstep]; exact hb2⟩

/-- C9: a screen-burn transition started in outward mode and updated
with any sequence of positive `dt` steps has `burn_progress = 1` and
`complete = True` as soon as the accumulated simulated time reaches
`1 / burn_speed` — in particular at the first update where it does. -/
theorem screen_burn_C9_outward_completes (s0 : SBTransition) (dts : List ℚ)
    (hpos : ∀ d ∈ dts, 0 < d)
    (hspeed : 0 < (startSBT false s0).burn_speed)
    (htime : 1 / (startSBT false s0).burn_speed ≤ dts.sum) :
    (runSBT dts (startSBT false s0)).complete = true ∧
    (runSBT dts (startSBT false s0)).burn_progress = 1 := by
  have h := (runSBT_outward dts (startSBT false s0) hpos rfl rfl rfl hspeed
    (by norm_num [startSBT]) (by norm_num [startSBT])).2
  apply h
  show (1:ℚ) ≤ 0 + (startSBT false s0).burn_speed * dts.sum
  rw [zero_add]
  rw [div_le_iff₀ hspeed] at htime
  linarith [htime]

theorem screen_burn_C9_witness :
    (runSBT [1] (startSBT false initSBT)).complete = true ∧
    (runSBT [1] (startSBT false initSBT)).burn_progress = 1 :=
  screen_burn_C9_outward_completes initSBT [1]
    (by intro d hd; simp at hd; rw [hd]; norm_num)
    (by show (0:ℚ) < 2; norm_num)
    (by show (1:ℚ)/2 ≤ [(1:ℚ)].sum; simp; norm_num)

/-! ## C10 — save is pure, snapshots hold copies, restore allocates fresh -/

theorem hApplySnap_extends (st : Store) (L : HLetter) (sn : SnapLetter) :
    ∃ ext : Store, (hApplySnap st L sn).1 = st ++ ext ∧
      ∀ g ∈ ext, sn.fuel_map = some g ∨ sn.heat_map = some g := by
  cases hf : sn.fuel_map with
  | none =>
    cases hh : sn.heat_map with
    | none =>
      refine ⟨[], ?_, by simp⟩
      simp [hApplySnap, allocStore, hf, hh]
    | some gh =>
      refine ⟨[gh], ?_, ?_⟩
      · simp [hApplySnap, allocStore, hf, hh]
      · intro g hg
        simp only [List.mem_singleton] at hg
        subst hg
        exact Or.inr rfl
  | some gf =>
    cases hh : sn.heat_map with
    | none =>
      refine ⟨[gf], ?_, ?_⟩
      · simp [hApplySnap, allocStore, hf, hh]
      · intro g hg
        simp only [List.mem_singleton] at hg
        subst hg
        exact Or.inl rfl
    | some gh =>
      refine ⟨[gf, gh], ?_, ?_⟩
      · simp [hApplySnap, allocStore, hf, hh]
      · intro g hg
        rcases List.mem_cons.mp hg with hg | hg
        · subst hg; exact Or.inl rfl
        · simp only [List.mem_singleton] at hg
          subst hg
          exact Or.inr rfl

theorem hRestoreLoop_extends (saved : List (Option SnapLetter)) :
    ∀ (st : Store) (letters : List (Option HLetter)) (i : ℕ),
    ∃ ext : Store, (hRestoreLoop saved st letters i).1 = st ++ ext ∧
      ∀ g ∈ ext, ∃ sn : SnapLetter, some sn ∈ saved ∧
        (sn.fuel_map = some g ∨ sn.heat_map = some g) := by
  induction saved with
  | nil =>
    intro st letters i
    exact ⟨[], by simp [hRestoreLoop], by simp⟩
  | cons hd rest ih =>
    intro st letters i
    cases hd with
    | none =>
      obtain ⟨ext, h1, h2⟩ := ih st letters (i + 1)
      exact ⟨ext, h1, fun g hg =>
        let ⟨sn, hsn, hor⟩ := h2 g hg
        ⟨sn, List.mem_cons_of_mem _ hsn, hor⟩⟩
    | some sn =>
      by_cases hlen : i < letters.length
      · cases hget : letters.get ⟨i, hlen⟩ with
        | none =>
          have hstep : hRestoreLoop (some sn :: rest) st letters i
              = hRestoreLoop rest st letters (i + 1) := by
            simp only [hRestoreLoop]
            rw [dif_pos hlen, hget]
          obtain ⟨ext, h1, h2⟩ := ih st letters (i + 1)
          exact ⟨ext, by rw [hstep]; exact h1, fun g hg =>
            let ⟨sn', hsn', hor⟩ := h2 g hg
            ⟨sn', List.mem_cons_of_mem _ hsn', hor⟩⟩
        | some L =>
          have hstep : hRestoreLoop (some sn :: rest) st letters i
              = hRestoreLoop rest (hApplySnap st L sn).1
                  (letters.set i (some (hApplySnap st L sn).2)) (i + 1) := by
            simp only [hRestoreLoop]
            rw [dif_pos hlen, hget]
          obtain ⟨ext1, he1, he2⟩ := hApplySnap_extends st L sn
          obtain ⟨ext2, h1, h2⟩ := ih (hApplySnap st L sn).1
            (letters.set i (some (hApplySnap st L sn).2)) (i + 1)
          refine ⟨ext1 ++ ext2, ?_, ?_⟩
          · rw [hstep, h1, he1, List.append_assoc]
          · intro g hg
            rcases List.mem_append.mp hg with hg1 | hg2
            · exact ⟨sn, List.mem_cons_self _ _, he2 g hg1⟩
            · obtain ⟨sn', hsn', hor⟩ := h2 g hg2
              exact ⟨sn', List.mem_cons_of_mem _ hsn', hor⟩
      · have hstep : hRestoreLoop (some sn :: rest) st letters i
            = (st, letters, false) := by
          simp only [hRestoreLoop]
          rw [dif_neg hlen]
        exact ⟨[], by rw [hstep]; simp, by simp⟩

theorem lookup_hSaveState (m : Manager) (st : Store) (id : String)
    (obj : HBurningText) :
    lookupState (hSaveState m st id obj).1 id = some (hSaveSnap st obj) := by
  unfold lookupState hSaveState
  simp [List.find?]

theorem hRestoreState_found (m : Manager) (st : Store) (id : String)
    (obj : HBurningText) (st₂ : Store) (T : HBurningText) :
    hRestoreState (hSaveState m st id obj).1 st₂ id T
      = ((hRestoreLoop (hSaveSnap st obj).letters_state st₂ T.letters 0).1,
         { T with letters :=
             (hRestoreLoop (hSaveSnap st obj).letters_state st₂
               T.letters 0).2.1 },
         (hRestoreLoop (hSaveSnap st obj).letters_state st₂
           T.letters 0).2.2) := by
  unfold hRestoreState
  rw [lookup_hSaveState]

/-- C10: `save_state` never mutates the store or the source object; the
snapshot it files holds the *values* of the source's arrays at save
time (`tolist` copies); restoring from it only appends freshly
allocated arrays, all drawn from those stored values — so it neither
depends on nor overwrites any array that existed before the call, and
mutating source or restored-target arrays can never reach the
snapshot's data. -/
theorem burning_text_C10_snapshot_isolation :
    (∀ (m : Manager) (st : Store) (id : String) (obj : HBurningText),
      (hSaveState m st id obj).2 = (st, obj)) ∧
    (∀ (m : Manager) (st : Store) (id : String) (obj : HBurningText),
      lookupState (hSaveState m st id obj).1 id = some (hSaveSnap st obj)) ∧
    (∀ (m : Manager) (st : Store) (id : String) (obj : HBurningText)
       (st₂ : Store) (T : HBurningText),
      ∃ ext : Store,
        (hRestoreState (hSaveState m st id obj).1 st₂ id T).1 = st₂ ++ ext ∧
        ∀ g ∈ ext, ∃ sn : SnapLetter,
          some sn ∈ (hSaveSnap st obj).letters_state ∧
          (sn.fuel_map = some g ∨ sn.heat_map = some g)) ∧
    (∀ (m : Manager) (st : Store) (id : String) (obj : HBurningText)
       (st₂ : Store) (T : HBurningText) (r : ℕ), r < st₂.length →
      readStore (hRestoreState (hSaveState m st id obj).1 st₂ id T).1 r
        = readStore st₂ r) := by
  refine ⟨fun _ _ _ _ => rfl, lookup_hSaveState, ?_, ?_⟩
  · intro m st id obj st₂ T
    obtain ⟨ext, h1, h2⟩ :=
      hRestoreLoop_extends (hSaveSnap st obj).letters_state st₂ T.letters 0
    refine ⟨ext, ?_, h2⟩
    rw [hRestoreState_found]
    exact h1
  · intro m st id obj st₂ T r hr
    obtain ⟨ext, h1, -⟩ :=
      hRestoreLoop_extends (hSaveSnap st obj).letters_state st₂ T.letters 0
    rw [hRestoreState_found]
    show readStore (hRestoreLoop (hSaveSnap st obj).letters_state st₂
      T.letters 0).1 r = readStore st₂ r
    rw [h1]
    unfold readStore
    exact List.getD_append st₂ ext [] r hr

theorem burning_text_C10_witness :
    readStore (hRestoreState (hSaveState emptyManager hStore "m" hObj).1
        hStore "m" hObj).1 0
      = readStore hStore 0 :=
  burning_text_C10_snapshot_isolation.2.2.2 emptyManager hStore "m" hObj
    hStore hObj 0 (by simp [hStore])

theorem burning_text_C4_witness :
    (update 1 (fun _ => true) 0 hot11).heat onePos
      = cooledHeat 1 hot11 onePos
        + (if inSpreadBlock onePos onePos then HEAT_TRANSFER_RATE * 1 else 0) :=
  (burning_text_C4_spread_block 1 (fun _ => true) 0 hot11 onePos
    (hot11_burning 1 (by norm_num)) rfl (fun q _ _ => pos11_eq q)).1 onePos

end ScareGame
